import Mathlib

/-!
Verification development for the `plink_bed` module of the biofile library.

The Rust source (src/plink_bed.rs) is embedded shallowly:
* bytes and genotype values (`u8`) become `Nat`;
* `f32` matrix entries become `ℚ` (every value the Additive decode path
  produces is an exact small integer, and the Dominance transform divides
  by `2 * num_people`, which is exact in `ℚ`);
* a `PlinkBed` reader is a `BedConfig`: the contents of the backing `.bed`
  files stand in for their paths, and `(num_snps, snp_type)` per file stands
  in for the line counts of the companion files;
* each `BufReader<File>` is an explicit byte cursor in `pos`; `read_exact`
  past the end of a file, a failed seek, and a `usize` underflow all become
  `Option.none` (a Rust `Err` or panic);
* matrices with column-major strides `(1, num_people)` are represented as
  their list of columns, so the flat backing vector is the concatenation of
  the columns.
-/

/-- Rust `PlinkSnpType` (src/plink_bed.rs): interpretation of a SNP column. -/
inductive PlinkSnpType where
  | Additive : PlinkSnpType
  | Dominance : PlinkSnpType
deriving DecidableEq, Repr

/-- Rust `NUM_MAGIC_BYTES` (src/plink_bed.rs). -/
def NUM_MAGIC_BYTES : Nat := 3

/-- Rust `MAGIC_BYTES` (src/plink_bed.rs): the three-byte preamble. -/
def MAGIC_BYTES : List Nat := [0x6c, 0x1b, 0x01]

/-- Rust `usize_div_ceil` (src/plink_bed.rs): `a / divisor + (a % divisor != 0) as usize`. -/
def usize_div_ceil (a divisor : Nat) : Nat :=
  a / divisor + (if a % divisor ≠ 0 then 1 else 0)

/-- Rust `lowest_two_bits_to_geno` (src/plink_bed.rs).  `a` is bit 1, `b` is bit 0 of
the byte; the Rust `!b` is the `u8` complement, i.e. `255 - b`. -/
def lowest_two_bits_to_geno (byte : Nat) : Nat :=
  let a := (byte &&& 0b10) >>> 1
  let b := byte &&& 1
  (((a ||| b) ^^^ 1) <<< 1) ||| (a &&& (255 - b))

/-- Rust `geno_to_lowest_two_bits` (src/plink_bed.rs). -/
def geno_to_lowest_two_bits (geno : Nat) : Nat :=
  let not_a := ((geno &&& 0b10) >>> 1) ^^^ 1
  let not_b := (geno &&& 1) ^^^ 1
  (not_a <<< 1) ||| (not_b &&& not_a)

/-- Rust `PlinkBed::num_bytes_per_snp` (src/plink_bed.rs): `ceil(num_people / 4)`. -/
def num_bytes_per_snp (num_people : Nat) : Nat :=
  usize_div_ceil num_people 4

/-- Rust `get_num_people_last_byte` (src/plink_bed.rs). -/
def get_num_people_last_byte (total_num_people : Nat) : Option Nat :=
  if total_num_people = 0 then none
  else match total_num_people % 4 with
    | 0 => some 4
    | x => some x

/-- Rust `FileSnpIndexer::get_file_snp_index` (src/plink_bed.rs): resolve a global
SNP index to `(file_index, snp_index_within_file, snp_type)`.  The Rust loop
keeps a running prefix count `acc`; the structurally recursive form subtracts
the count of each skipped file from the index instead, which is the same
function. -/
def get_file_snp_index : List (Nat × PlinkSnpType) → Nat → Option (Nat × Nat × PlinkSnpType)
  | [], _ => none
  | (count, snp_type) :: rest, snp_index =>
    if snp_index < count then some (0, snp_index, snp_type)
    else (get_file_snp_index rest (snp_index - count)).map fun r => (r.1 + 1, r.2.1, r.2.2)

/-- Rust `PlinkBed::total_num_snps` (src/plink_bed.rs). -/
def total_num_snps (file_num_snps : List (Nat × PlinkSnpType)) : Nat :=
  (file_num_snps.map Prod.fst).sum

/-- Rust `file_num_snps.iter().take(file_i).map(|pair| pair.0).sum()` as used in
`DoubleEndedIterator::next_back` (src/plink_bed.rs) to rebuild a global index. -/
def snps_before_file (file_num_snps : List (Nat × PlinkSnpType)) (f : Nat) : Nat :=
  ((file_num_snps.take f).map Prod.fst).sum

/-- A `PlinkBed` reader (src/plink_bed.rs `PlinkBed`): the byte contents of the
backing bed files replace `bed_path_list`, and `file_num_snps` / `num_people`
are the counts the constructor derives from the companion files. -/
structure BedConfig where
  files : List (List Nat)
  file_num_snps : List (Nat × PlinkSnpType)
  num_people : Nat
deriving DecidableEq

/-- One full byte of `PlinkBed::create_bed`'s column loop: four genotype codes
packed with individual `4q` at the least-significant two bits. -/
def pack_full_byte (col : List Nat) (q : Nat) : Nat :=
  geno_to_lowest_two_bits (col.getD (4 * q) 0)
    ||| (geno_to_lowest_two_bits (col.getD (4 * q + 1) 0) <<< 2)
    ||| (geno_to_lowest_two_bits (col.getD (4 * q + 2) 0) <<< 4)
    ||| (geno_to_lowest_two_bits (col.getD (4 * q + 3) 0) <<< 6)

/-- The remainder byte of `PlinkBed::create_bed`: `num_people % 4` codes in the
low bits of a zero-initialised byte, starting at offset `i = 4 * (num_people / 4)`. -/
def pack_tail_byte (col : List Nat) (i remainder : Nat) : Nat :=
  (List.range remainder).foldl
    (fun byte j => byte ||| (geno_to_lowest_two_bits (col.getD (i + j) 0) <<< (j * 2))) 0

/-- The bytes `PlinkBed::create_bed` emits for one SNP column. -/
def pack_column (col : List Nat) (num_people : Nat) : List Nat :=
  (List.range (num_people / 4)).map (pack_full_byte col)
    ++ (if num_people % 4 > 0 then [pack_tail_byte col (4 * (num_people / 4)) (num_people % 4)] else [])

/-- Rust `PlinkBed::create_bed` (src/plink_bed.rs): the bytes written for a dense
genotype matrix, given as its list of SNP columns (`arr.gencolumns()`), each of
length `num_people = arr.dim().0`. -/
def create_bed (cols : List (List Nat)) (num_people : Nat) : List Nat :=
  MAGIC_BYTES ++ cols.flatMap fun col => pack_column col num_people

/-- The decode loop of `PlinkColChunkIter::read_chunk` (src/plink_bed.rs): the
first `num_bytes_per - 1` bytes contribute four individuals each, the last byte
contributes `num_people_last` individuals. -/
def snp_bytes_to_geno_vec (snp_bytes : List Nat) (num_bytes_per num_people_last : Nat) : List ℚ :=
  ((List.range (num_bytes_per - 1)).flatMap fun i =>
    [ (lowest_two_bits_to_geno (snp_bytes.getD i 0) : ℚ),
      (lowest_two_bits_to_geno ((snp_bytes.getD i 0) >>> 2) : ℚ),
      (lowest_two_bits_to_geno ((snp_bytes.getD i 0) >>> 4) : ℚ),
      (lowest_two_bits_to_geno ((snp_bytes.getD i 0) >>> 6) : ℚ) ])
  ++ (List.range num_people_last).map fun k =>
      (lowest_two_bits_to_geno ((snp_bytes.getD (num_bytes_per - 1) 0) >>> (k <<< 1)) : ℚ)

/-- Rust `convert_geno_vec_to_dominance_representation` (src/plink_bed.rs).  The Rust
code matches on `geno_vec[i] as u8`; every value reaching this function is an
exact decode result in `{0, 1, 2}`, so the cast is the identity and the match
becomes equality tests. -/
def convert_geno_vec_to_dominance_representation (geno_vec : List ℚ) : List ℚ :=
  let num_people := geno_vec.length
  let p := geno_vec.sum / (2 * (num_people : ℚ))
  let hetero := 2 * p
  let homo_minor := 4 * p - 2
  geno_vec.map fun g => if g = 2 then homo_minor else if g = 1 then hetero else 0

/-- The mutable state of a `PlinkColChunkIter` (src/plink_bed.rs): one byte
cursor per buffered reader, the restricted range (as its sorted list of global
SNP indices), the chunk size, `num_snps_in_range`, `range_cursor`, and
`last_read_file_snp_index`. -/
structure PlinkColChunkIterState where
  pos : List Nat
  range : List Nat
  num_snps_per_iter : Nat
  num_snps_in_range : Nat
  range_cursor : Nat
  last_read_file_snp_index : Option (Nat × Nat)
deriving DecidableEq

/-- Rust `PlinkColChunkIter::seek_to_snp` (src/plink_bed.rs): errors when the index
is not in the range or cannot be resolved, else absolute-seeks the file's
buffered reader to the start of the SNP's block. -/
def seek_to_snp (cfg : BedConfig) (snp_index : Nat) (st : PlinkColChunkIterState) :
    Option PlinkColChunkIterState :=
  if snp_index ∈ st.range then
    match get_file_snp_index cfg.file_num_snps snp_index with
    | some (file_index, snp_index_within_file, _) =>
      let target := NUM_MAGIC_BYTES + num_bytes_per_snp cfg.num_people * snp_index_within_file
      some { st with pos := st.pos.set file_index target }
    | none => none
  else none

/-- Rust `BufReader::read_exact` on reader `file_index`: consume `n` bytes at the
cursor, failing if the file ends first. -/
def read_exact (cfg : BedConfig) (file_index n : Nat) (st : PlinkColChunkIterState) :
    Option (List Nat × PlinkColChunkIterState) :=
  let p := st.pos.getD file_index 0
  let file := cfg.files.getD file_index []
  if p + n ≤ file.length then
    some ((file.drop p).take n, { st with pos := st.pos.set file_index (p + n) })
  else none

/-- The fall-through branch of `PlinkColChunkIter::read_snp_bytes`
(src/plink_bed.rs): absolute seek, then `read_exact`, then record the location. -/
def read_snp_bytes_absolute (cfg : BedConfig)
    (snp_index file_index snp_index_within_file : Nat) (snp_type : PlinkSnpType)
    (st : PlinkColChunkIterState) :
    Option (PlinkSnpType × List Nat × PlinkColChunkIterState) :=
  match seek_to_snp cfg snp_index st with
  | none => none
  | some st1 =>
    match read_exact cfg file_index (num_bytes_per_snp cfg.num_people) st1 with
    | none => none
    | some (bytes, st2) =>
      some (snp_type, bytes,
        { st2 with last_read_file_snp_index := some (file_index, snp_index_within_file) })

/-- Rust `PlinkColChunkIter::read_snp_bytes` (src/plink_bed.rs).  On the same-file
fast path the Rust code computes `snp_index_within_file - last_snp_index_within_file`
in `usize`; an underflow (reading a smaller local index than the last one)
panics, modelled as `none`. -/
def read_snp_bytes (cfg : BedConfig) (snp_index : Nat) (st : PlinkColChunkIterState) :
    Option (PlinkSnpType × List Nat × PlinkColChunkIterState) :=
  match get_file_snp_index cfg.file_num_snps snp_index with
  | none => none
  | some (file_index, snp_index_within_file, snp_type) =>
    match st.last_read_file_snp_index with
    | some (last_file_index, last_snp_index_within_file) =>
      if file_index = last_file_index then
        if snp_index_within_file < last_snp_index_within_file then none
        else
          let snp_index_gap := snp_index_within_file - last_snp_index_within_file
          let target := st.pos.getD file_index 0
            + (snp_index_gap - 1) * num_bytes_per_snp cfg.num_people
          let st1 := if snp_index_gap > 1 then { st with pos := st.pos.set file_index target }
            else st
          match read_exact cfg file_index (num_bytes_per_snp cfg.num_people) st1 with
          | none => none
          | some (bytes, st2) =>
            some (snp_type, bytes,
              { st2 with last_read_file_snp_index := some (file_index, snp_index_within_file) })
      else read_snp_bytes_absolute cfg snp_index file_index snp_index_within_file snp_type st
    | none => read_snp_bytes_absolute cfg snp_index file_index snp_index_within_file snp_type st

/-- The per-index loop of `PlinkColChunkIter::read_chunk` (src/plink_bed.rs):
read and decode each SNP of the slice in order, applying the dominance
transform when the SNP's type asks for it.  The `.unwrap()` on a failed read
(a panic) is `none`. -/
def read_chunk_go (cfg : BedConfig) :
    List Nat → PlinkColChunkIterState → Option (List (List ℚ) × PlinkColChunkIterState)
  | [], st => some ([], st)
  | index :: rest, st =>
    match read_snp_bytes cfg index st with
    | none => none
    | some (snp_type, snp_bytes, st1) =>
      let snp_vec := snp_bytes_to_geno_vec snp_bytes (num_bytes_per_snp cfg.num_people)
        ((get_num_people_last_byte cfg.num_people).getD 0)
      let col := match snp_type with
        | .Additive => snp_vec
        | .Dominance => convert_geno_vec_to_dominance_representation snp_vec
      match read_chunk_go cfg rest st1 with
      | none => none
      | some (cols, st2) => some (col :: cols, st2)

/-- Rust `PlinkColChunkIter::read_chunk` (src/plink_bed.rs): slice the range at the
forward cursor, advance the cursor by the actual chunk size, and emit the
decoded columns (the matrix of shape `(num_people, actual_chunk_size)` with
column-major strides, i.e. the list of its columns). -/
def read_chunk (cfg : BedConfig) (chunk_size : Nat) (st : PlinkColChunkIterState) :
    Option (List (List ℚ) × PlinkColChunkIterState) :=
  let snp_indices := (st.range.drop st.range_cursor).take chunk_size
  let actual_chunk_size := snp_indices.length
  read_chunk_go cfg snp_indices { st with range_cursor := st.range_cursor + actual_chunk_size }

/-- Result of one pull on the iterator: `done` is Rust's `None`, `yield` is
`Some(matrix)` with the successor state, `fault` is a panic or I/O failure
inside the pull. -/
inductive ChunkStep where
  | done : ChunkStep
  | yield : List (List ℚ) → PlinkColChunkIterState → ChunkStep
  | fault : ChunkStep
deriving DecidableEq

/-- Rust `Iterator::next` for `PlinkColChunkIter` (src/plink_bed.rs). -/
def chunkIterNext (cfg : BedConfig) (st : PlinkColChunkIterState) : ChunkStep :=
  if st.num_snps_in_range ≤ st.range_cursor then .done
  else
    match read_chunk cfg (min st.num_snps_per_iter (st.num_snps_in_range - st.range_cursor)) st with
    | some (m, st') => .yield m st'
    | none => .fault

/-- Rust `DoubleEndedIterator::next_back` for `PlinkColChunkIter` (src/plink_bed.rs):
shrink `num_snps_in_range`, clear `last_read_file_snp_index`, seek to the SNP at
the new reverse bound, call `read_chunk`, then seek back to the saved last-read
location (or to global index 0 when there is none) and restore it. -/
def chunkIterNextBack (cfg : BedConfig) (st : PlinkColChunkIterState) : ChunkStep :=
  if st.num_snps_in_range ≤ st.range_cursor then .done
  else
    let chunk_size := min st.num_snps_per_iter (st.num_snps_in_range - st.range_cursor)
    let stA := { st with num_snps_in_range := st.num_snps_in_range - chunk_size }
    let last_read_snp_index := stA.last_read_file_snp_index
    let stB := { stA with last_read_file_snp_index := (none : Option (Nat × Nat)) }
    match ((stB.range.drop stB.num_snps_in_range).take 1).head? with
    | none => .fault
    | some snp =>
      match seek_to_snp cfg snp stB with
      | none => .fault
      | some stC =>
        match read_chunk cfg chunk_size stC with
        | none => .fault
        | some (chunk, stD) =>
          let restored := match last_read_snp_index with
            | some (file_i, snp_i) =>
              seek_to_snp cfg (snps_before_file cfg.file_num_snps file_i + snp_i) stD
            | none => seek_to_snp cfg 0 stD
          match restored with
          | none => .fault
          | some stE => .yield chunk { stE with last_read_file_snp_index := last_read_snp_index }

/-- Rust `PlinkColChunkIter::new` (src/plink_bed.rs): fresh readers at position 0,
cursor 0, then seek to the first element of the range (or to SNP 0 when the
range is empty); the `.unwrap()` on a failed seek is `none`. -/
def plinkColChunkIterNew (cfg : BedConfig) (range : List Nat) (num_snps_per_iter : Nat) :
    Option PlinkColChunkIterState :=
  let st : PlinkColChunkIterState :=
    { pos := cfg.files.map fun _ => 0
      range := range
      num_snps_per_iter := num_snps_per_iter
      num_snps_in_range := range.length
      range_cursor := 0
      last_read_file_snp_index := none }
  match range.head? with
  | some start => seek_to_snp cfg start st
  | none => seek_to_snp cfg 0 st

/-- Rust `PlinkBed::col_chunk_iter` (src/plink_bed.rs).  With no range it builds
`OrderedIntegerSet::from_slice(&[[0, total - 1]])`, i.e. all of
`[0, total)`; `total - 1` underflows (panics) when the total is zero. -/
def col_chunk_iter (cfg : BedConfig) (num_snps_per_iter : Nat) (range : Option (List Nat)) :
    Option PlinkColChunkIterState :=
  match range with
  | some r => plinkColChunkIterNew cfg r num_snps_per_iter
  | none =>
    if total_num_snps cfg.file_num_snps = 0 then none
    else plinkColChunkIterNew cfg (List.range (total_num_snps cfg.file_num_snps)) num_snps_per_iter

/-- Drive the iterator forward to exhaustion (the `for snp_chunk in ...` loops
over a `PlinkColChunkIter`), collecting the yielded matrices; `none` when a pull
faults or the fuel runs out before the iterator reports `done`. -/
def run_chunks (cfg : BedConfig) : Nat → PlinkColChunkIterState → Option (List (List (List ℚ)))
  | 0, _ => none
  | fuel + 1, st =>
    match chunkIterNext cfg st with
    | .done => some []
    | .fault => none
    | .yield m st' => (run_chunks cfg fuel st').map fun rest => m :: rest

/-- Drive the iterator with `next_back` to exhaustion, collecting the yielded
matrices. -/
def run_back_chunks (cfg : BedConfig) : Nat → PlinkColChunkIterState → Option (List (List (List ℚ)))
  | 0, _ => none
  | fuel + 1, st =>
    match chunkIterNextBack cfg st with
    | .done => some []
    | .fault => none
    | .yield m st' => (run_back_chunks cfg fuel st').map fun rest => m :: rest

/-- Rust `PlinkBed::get_genotype_matrix` (src/plink_bed.rs): iterate
`col_chunk_iter(100, snps_range)` to exhaustion and append the chunks' columns
into one `(num_people, num_snps)` column-major matrix. -/
def get_genotype_matrix (cfg : BedConfig) (snps_range : Option (List Nat)) :
    Option (List (List ℚ)) :=
  match col_chunk_iter cfg 100 snps_range with
  | none => none
  | some st => (run_chunks cfg (st.num_snps_in_range + 1) st).map List.flatten

/-- Bytes of the block of SNP `l` of file `f`: offset `3 + B * l`, length `B`. -/
def true_snp_bytes (cfg : BedConfig) (f l : Nat) : List Nat :=
  ((cfg.files.getD f []).drop
      (NUM_MAGIC_BYTES + num_bytes_per_snp cfg.num_people * l)).take
    (num_bytes_per_snp cfg.num_people)

/-- Reference value of one decoded SNP column: resolve the global index, take
the block's bytes straight from the file, decode them as `read_chunk` does and
apply the dominance transform when the file's type asks for it. -/
def true_snp_column (cfg : BedConfig) (snp_index : Nat) : List ℚ :=
  match get_file_snp_index cfg.file_num_snps snp_index with
  | none => []
  | some (f, l, t) =>
    let v := snp_bytes_to_geno_vec (true_snp_bytes cfg f l) (num_bytes_per_snp cfg.num_people)
      ((get_num_people_last_byte cfg.num_people).getD 0)
    match t with
    | .Additive => v
    | .Dominance => convert_geno_vec_to_dominance_representation v

/-- The same reader with every file reinterpreted as Additive. -/
def allAdditive (cfg : BedConfig) : BedConfig :=
  { cfg with file_num_snps := cfg.file_num_snps.map fun p => (p.1, PlinkSnpType.Additive) }

/-- What `PlinkBed::new` guarantees about a reader (src/plink_bed.rs): at least
one file, positive SNP count per file, one positive shared sample count, and —
invariant (I1) of the format — every backing file at least
`3 + num_snps * num_bytes_per_snp` bytes long. -/
structure BedWF (cfg : BedConfig) : Prop where
  files_len : cfg.files.length = cfg.file_num_snps.length
  num_people_pos : 0 < cfg.num_people
  counts_pos : ∀ p ∈ cfg.file_num_snps, 0 < p.1
  fns_ne : cfg.file_num_snps ≠ []
  file_big : ∀ f < cfg.file_num_snps.length,
    NUM_MAGIC_BYTES
        + num_bytes_per_snp cfg.num_people * (cfg.file_num_snps.getD f (0, .Additive)).1
      ≤ (cfg.files.getD f []).length

/-- The buffered-reader consistency behind the sequential fast path: whenever a
last-read location `(f, ll)` is recorded, it resolves back to itself and file
`f`'s cursor sits right after block `ll`. -/
def last_ptr_ok (cfg : BedConfig) (st : PlinkColChunkIterState) : Prop :=
  ∀ lf ll, st.last_read_file_snp_index = some (lf, ll) →
    (∃ t, get_file_snp_index cfg.file_num_snps
        (snps_before_file cfg.file_num_snps lf + ll) = some (lf, ll, t))
    ∧ st.pos.getD lf 0
        = NUM_MAGIC_BYTES + num_bytes_per_snp cfg.num_people * (ll + 1)

/-- The recorded last-read location (if any) lies globally before `j`. -/
def lastG_lt (cfg : BedConfig) (st : PlinkColChunkIterState) (j : Nat) : Prop :=
  ∀ lf ll, st.last_read_file_snp_index = some (lf, ll) →
    snps_before_file cfg.file_num_snps lf + ll < j

/-- Invariant of forward chunk iteration. -/
structure IterInv (cfg : BedConfig) (st : PlinkColChunkIterState) : Prop where
  sorted : List.Pairwise (· < ·) st.range
  bounded : ∀ i ∈ st.range, i < total_num_snps cfg.file_num_snps
  pos_len : st.pos.length = cfg.files.length
  cursor_le : st.range_cursor ≤ st.num_snps_in_range
  size_eq : st.num_snps_in_range = st.range.length
  last_ok : last_ptr_ok cfg st
  last_lt : ∀ j ∈ st.range.drop st.range_cursor, lastG_lt cfg st j

/-- The four OR-writes of `PlinkBed::create_bed_t`'s innermost loop
(src/plink_bed.rs) for source byte `b` at buffer offset `w`: the two-bit codes
of byte `b` go to row buffers `w`, `w + 1`, `w + 2`, `w + 3` at output byte
`snp_byte_index`, shifted left by `snp_offset << 1`. -/
def bedt_accumulate_byte (people_buf : List (List Nat)) (w snp_byte_index snp_offset b : Nat) :
    List (List Nat) :=
  let upd := fun (buf : List (List Nat)) (p v : Nat) =>
    buf.set p ((buf.getD p []).set snp_byte_index
      (((buf.getD p []).getD snp_byte_index 0) ||| v))
  let buf0 := upd people_buf w ((b &&& 0b11) <<< (snp_offset <<< 1))
  let buf1 := upd buf0 (w + 1) (((b >>> 2) &&& 0b11) <<< (snp_offset <<< 1))
  let buf2 := upd buf1 (w + 2) (((b >>> 4) &&& 0b11) <<< (snp_offset <<< 1))
  upd buf2 (w + 3) (((b >>> 6) &&& 0b11) <<< (snp_offset <<< 1))

/-- One `read_exact(&mut snp_bytes)` of `create_bed_t` plus the per-byte
accumulation and the trailing `seek_relative(relative_seek_offset)`; the state
is `(cursor, people_buf)`. -/
def bedt_read_one_snp (file : List Nat)
    (snp_bytes_len snp_byte_index snp_offset relative_seek_offset : Nat)
    (s : Nat × List (List Nat)) : Option (Nat × List (List Nat)) :=
  let cursor := s.1
  if cursor + snp_bytes_len ≤ file.length then
    let snp_bytes := (file.drop cursor).take snp_bytes_len
    let buf := (List.range snp_bytes_len).foldl
      (fun buf w => bedt_accumulate_byte buf w snp_byte_index snp_offset (snp_bytes.getD w 0))
      s.2
    some (cursor + snp_bytes_len + relative_seek_offset, buf)
  else none

/-- The `snp_offset` loop of `create_bed_t` for the group of four SNPs starting
at SNP `4 * snp_byte_index`. -/
def bedt_read_group (file : List Nat)
    (total snp_bytes_len relative_seek_offset snp_byte_index : Nat)
    (s : Nat × List (List Nat)) : Option (Nat × List (List Nat)) :=
  (List.range (min (4 * snp_byte_index + 4) total - 4 * snp_byte_index)).foldlM
    (fun s snp_offset =>
      bedt_read_one_snp file snp_bytes_len snp_byte_index snp_offset relative_seek_offset s)
    s

/-- One outer block of `create_bed_t` (src/plink_bed.rs): `people_stride`
zeroed row buffers, the per-block `snp_bytes` length (shrunk for the final
partial block), the seek to the byte of SNP 0 covering individual `j`, the
double loop over SNP groups, then the rows written for individuals
`j..num_people`. -/
def bedt_block (cfg : BedConfig) (file : List Nat)
    (total num_bytes_per_person snp_byte_chunk_size people_stride j : Nat) :
    Option (List Nat) :=
  let people_buf := List.replicate people_stride (List.replicate num_bytes_per_person 0)
  let snp_bytes_len := if cfg.num_people - j < people_stride then
      usize_div_ceil (cfg.num_people % people_stride) 4
    else snp_byte_chunk_size
  let relative_seek_offset := num_bytes_per_snp cfg.num_people - snp_bytes_len
  let cursor := NUM_MAGIC_BYTES + num_bytes_per_snp cfg.num_people * 0 + j / 4
  match (List.range (usize_div_ceil total 4)).foldlM
      (fun s snp_byte_index =>
        bedt_read_group file total snp_bytes_len relative_seek_offset snp_byte_index s)
      (cursor, people_buf) with
  | none => none
  | some (_, buf) =>
    some (((List.range people_stride).filter fun p => j + p < cfg.num_people).flatMap
      fun p => buf.getD p [])

/-- Rust `PlinkBed::create_bed_t` (src/plink_bed.rs): the bytes written to
`out_path`, or `none` on an I/O failure. -/
def create_bed_t (cfg : BedConfig) (file_index snp_byte_chunk_size : Nat) :
    Option (List Nat) :=
  if file_index < cfg.files.length then
    let file := cfg.files.getD file_index []
    let total := total_num_snps cfg.file_num_snps
    let num_bytes_per_person := usize_div_ceil total 4
    let people_stride := snp_byte_chunk_size * 4
    ((List.range (usize_div_ceil cfg.num_people people_stride)).mapM fun jq =>
        bedt_block cfg file total num_bytes_per_person snp_byte_chunk_size people_stride
          (jq * people_stride)).map List.flatten
  else none

/-- Modelled from the spec: `ByteChunkIter` (§4.4) — src/byte_chunk_iter.rs is
not under src/.  "Given a seekable stream, a start offset s, an exclusive end
offset e, and a chunk size c > 0, yields successive byte slices of length c
while ≥ c bytes remain in [cursor, e), then one final shorter slice (if
e − cursor > 0).  Fails with an I/O error if the stream ends before e or a read
underflows."  The fuel argument only bounds the recursion. -/
def byte_chunks_go (file : List Nat) (end_excl chunk_size : Nat) :
    Nat → Nat → Option (List (List Nat))
  | 0, cursor => if end_excl ≤ cursor then some [] else none
  | fuel + 1, cursor =>
    if end_excl ≤ cursor then some []
    else
      let n := min chunk_size (end_excl - cursor)
      if cursor + n ≤ file.length then
        (byte_chunks_go file end_excl chunk_size fuel (cursor + n)).map
          ((file.drop cursor).take n :: ·)
      else none

/-- Modelled from the spec: the slices yielded by a `ByteChunkIter` over
`[start_byte, end_excl)` with the given chunk size (§4.4). -/
def byte_chunks (file : List Nat) (start_byte end_excl chunk_size : Nat) :
    Option (List (List Nat)) :=
  byte_chunks_go file end_excl chunk_size end_excl start_byte

/-- Modelled from the spec: `PlinkSnps::new(bytes, num_snps).into_iter()` —
src/plink_bed/plink_snps.rs is not under src/.  §4.2: walk the bytes
left-to-right, four individuals per byte, decoding each two-bit code by the §3
table `00 → 2, 01 → missing, 10 → 1, 11 → 0`, with missing kept distinct
(`none`) since §4.9 requires "missing → missing". -/
def plink_snps_new (bytes : List Nat) (num_snps : Nat) : List (Option Nat) :=
  (List.range num_snps).map fun j =>
    match (bytes.getD (j / 4) 0 >>> ((j % 4) * 2)) &&& 0b11 with
    | 0 => some 2
    | 1 => none
    | 2 => some 1
    | _ => some 0

/-- Modelled from the spec: `PlinkSnps::from_geno(geno).into_bytes()` (§4.2
inverse): pack the genotype sequence into `ceil(n / 4)` zero-initialised bytes
in the same order, genotypes re-encoded by the §3 table and missing as the code
`01`. -/
def plink_snps_from_geno (geno : List (Option Nat)) : List Nat :=
  (List.range (usize_div_ceil geno.length 4)).map fun i =>
    (List.range (min 4 (geno.length - 4 * i))).foldl
      (fun byte j =>
        byte ||| ((match geno.getD (4 * i + j) (some 0) with
                   | none => 1
                   | some g => geno_to_lowest_two_bits g) <<< (j * 2))) 0

/-- Rust `PlinkBed::create_dominance_geno_bed` (src/plink_bed.rs): write the magic
bytes, then for every `num_bytes_per_snp`-byte chunk of the selected file over
the byte range `[3, 3 + total_num_snps * num_bytes_per_snp)`, re-pack the
per-individual genotypes remapped by `2 => 1, s => s`.  `PlinkSnps` and
`ByteChunkIter` are the spec-modelled functions above. -/
def create_dominance_geno_bed (cfg : BedConfig) (file_index : Nat) : Option (List Nat) :=
  let B := num_bytes_per_snp cfg.num_people
  if file_index < cfg.files.length then
    match byte_chunks (cfg.files.getD file_index []) NUM_MAGIC_BYTES
        (NUM_MAGIC_BYTES + total_num_snps cfg.file_num_snps * B) B with
    | none => none
    | some chunks =>
      some (MAGIC_BYTES ++ chunks.flatMap fun bytes =>
        plink_snps_from_geno ((plink_snps_new bytes cfg.num_people).map fun s =>
          match s with
          | some 2 => some 1
          | s => s))
  else none

/-- Reader over one packed file with 4 SNPs and 2 individuals, columns
`[0,0], [1,1], [2,2], [0,1]` (bytes `15, 10, 0, 11`). -/
def cfgFour : BedConfig := ⟨[[0x6c, 0x1b, 0x01, 15, 10, 0, 11]], [(4, .Additive)], 2⟩

/-- Reader over the packed form of the one-SNP, eight-individual matrix with
column `[2,2,2,2,0,0,0,0]` (block bytes `0x00, 0xff`). -/
def cfgEight : BedConfig := ⟨[create_bed [[2, 2, 2, 2, 0, 0, 0, 0]] 8], [(1, .Additive)], 8⟩

/-- Two-file reader, one SNP and one individual per file; file 0 carries one
excess byte beyond its single block, which invariant (I1) ignores. -/
def cfgTwoFiles : BedConfig :=
  ⟨[[0x6c, 0x1b, 0x01, 0, 0], [0x6c, 0x1b, 0x01, 0]], [(1, .Additive), (1, .Additive)], 1⟩

/-- Reader whose backing file is truncated to the bare magic preamble: the
declared single SNP block is missing, so every read of it fails. -/
def cfgTruncated : BedConfig := ⟨[[0x6c, 0x1b, 0x01]], [(1, .Additive)], 1⟩

/-- Minimal well-formed reader: one file, one SNP, one individual (genotype 0). -/
def cfgOne : BedConfig := ⟨[[0x6c, 0x1b, 0x01, 3]], [(1, .Additive)], 1⟩

/-- Well-formed reader with two SNPs and one individual (genotypes 0 and 1). -/
def cfgTwoSnps : BedConfig := ⟨[[0x6c, 0x1b, 0x01, 3, 2]], [(2, .Additive)], 1⟩

/-- Dominance reader: one SNP, two individuals, additive column `[2, 1]`
(block byte 8). -/
def cfgDom : BedConfig := ⟨[[0x6c, 0x1b, 0x01, 8]], [(1, .Dominance)], 2⟩

lemma and_one_eq_of_mod_four (g : Nat) : g % 4 &&& 1 = g &&& 1 := by
  rw [Nat.and_one_is_mod, Nat.and_one_is_mod, Nat.mod_mod_of_dvd]
  norm_num

lemma and_two_eq_of_mod_four (g : Nat) : g % 4 &&& 2 = g &&& 2 := by
  have h2 : (2 : Nat) = 2 ^ 1 := rfl
  have h4 : (4 : Nat) = 2 ^ 2 := rfl
  rw [h2, Nat.and_two_pow, Nat.and_two_pow, h4, Nat.testBit_mod_two_pow]
  simp

lemma geno_to_lowest_two_bits_mod_four (g : Nat) :
    geno_to_lowest_two_bits g = geno_to_lowest_two_bits (g % 4) := by
  unfold geno_to_lowest_two_bits
  rw [and_one_eq_of_mod_four, and_two_eq_of_mod_four]

lemma lowest_two_bits_to_geno_mod_four (b : Nat) :
    lowest_two_bits_to_geno b = lowest_two_bits_to_geno (b % 4) := by
  unfold lowest_two_bits_to_geno
  rw [and_one_eq_of_mod_four, and_two_eq_of_mod_four]

lemma mod_four_cases (g : Nat) : g % 4 = 0 ∨ g % 4 = 1 ∨ g % 4 = 2 ∨ g % 4 = 3 := by
  omega

lemma geno_to_lowest_two_bits_lt_four (g : Nat) : geno_to_lowest_two_bits g < 4 := by
  rw [geno_to_lowest_two_bits_mod_four]
  rcases mod_four_cases g with h | h | h | h <;> rw [h] <;> decide

lemma lowest_two_bits_to_geno_le_two (b : Nat) : lowest_two_bits_to_geno b ≤ 2 := by
  rw [lowest_two_bits_to_geno_mod_four]
  rcases mod_four_cases b with h | h | h | h <;> rw [h] <;> decide

lemma decode_packed_byte_shift :
    ∀ c0 < 4, ∀ c1 < 4, ∀ c2 < 4, ∀ c3 < 4, ∀ r < 4,
      lowest_two_bits_to_geno ((c0 ||| (c1 <<< 2) ||| (c2 <<< 4) ||| (c3 <<< 6)) >>> (r <<< 1))
        = lowest_two_bits_to_geno ([c0, c1, c2, c3].getD r 0) := by
  decide

lemma decode_encode_lt_four (g : Nat) (h : g < 4) :
    lowest_two_bits_to_geno (geno_to_lowest_two_bits g) = if g = 3 then 2 else g := by
  interval_cases g <;> decide

lemma flatMap_decode_blocks (bytes : List Nat) (m : Nat) :
    ((List.range m).flatMap fun i =>
      [ (lowest_two_bits_to_geno (bytes.getD i 0) : ℚ),
        (lowest_two_bits_to_geno ((bytes.getD i 0) >>> 2) : ℚ),
        (lowest_two_bits_to_geno ((bytes.getD i 0) >>> 4) : ℚ),
        (lowest_two_bits_to_geno ((bytes.getD i 0) >>> 6) : ℚ) ])
      = (List.range (4 * m)).map fun j =>
          (lowest_two_bits_to_geno ((bytes.getD (j / 4) 0) >>> ((j % 4) <<< 1)) : ℚ) := by
  induction m with
  | zero => simp
  | succ m ih =>
    rw [List.range_succ, List.flatMap_append, ih,
      show 4 * (m + 1) = 4 * m + 4 from by ring, List.range_add, List.map_append]
    congr 1
    have e0 : (4 * m + 0) / 4 = m := by omega
    have e1 : (4 * m + 1) / 4 = m := by omega
    have e2 : (4 * m + 2) / 4 = m := by omega
    have e3 : (4 * m + 3) / 4 = m := by omega
    have f0 : (4 * m + 0) % 4 = 0 := by omega
    have f1 : (4 * m + 1) % 4 = 1 := by omega
    have f2 : (4 * m + 2) % 4 = 2 := by omega
    have f3 : (4 * m + 3) % 4 = 3 := by omega
    simp only [List.flatMap_cons, List.flatMap_nil, List.append_nil,
      show List.range 4 = [0, 1, 2, 3] from rfl, List.map_cons, List.map_nil]
    rw [e0, e1, e2, e3, f0, f1, f2, f3]
    simp only [show (0 : Nat) <<< 1 = 0 from rfl, show (1 : Nat) <<< 1 = 2 from rfl,
      show (2 : Nat) <<< 1 = 4 from rfl, show (3 : Nat) <<< 1 = 6 from rfl,
      Nat.shiftRight_zero]

lemma npl_le_four (n : Nat) : (get_num_people_last_byte n).getD 0 ≤ 4 := by
  unfold get_num_people_last_byte
  rcases mod_four_cases n with h | h | h | h <;> by_cases h0 : n = 0 <;> simp [h, h0]

lemma num_bytes_per_snp_pos (n : Nat) (hn : 0 < n) : 1 ≤ num_bytes_per_snp n := by
  unfold num_bytes_per_snp usize_div_ceil
  split <;> omega

lemma num_people_decomp (n : Nat) (hn : 0 < n) :
    4 * (num_bytes_per_snp n - 1) + (get_num_people_last_byte n).getD 0 = n := by
  have h0 : ¬ n = 0 := by omega
  unfold num_bytes_per_snp usize_div_ceil get_num_people_last_byte
  rcases mod_four_cases n with h | h | h | h <;> simp [h, h0] <;> omega

lemma snp_vec_eq_map_range (snp_bytes : List Nat) (B npl : Nat) (hB : 1 ≤ B) (hnpl : npl ≤ 4) :
    snp_bytes_to_geno_vec snp_bytes B npl
      = (List.range (4 * (B - 1) + npl)).map fun j =>
          (lowest_two_bits_to_geno ((snp_bytes.getD (j / 4) 0) >>> ((j % 4) <<< 1)) : ℚ) := by
  unfold snp_bytes_to_geno_vec
  rw [flatMap_decode_blocks, List.range_add, List.map_append]
  congr 1
  rw [List.map_map]
  apply List.map_congr_left
  intro k hk
  have hk4 : k < npl := List.mem_range.mp hk
  have e1 : (4 * (B - 1) + k) / 4 = B - 1 := by omega
  have e2 : (4 * (B - 1) + k) % 4 = k := by omega
  simp only [Function.comp_apply, e1, e2]

lemma length_snp_vec (snp_bytes : List Nat) (B npl : Nat) (hB : 1 ≤ B) (hnpl : npl ≤ 4) :
    (snp_bytes_to_geno_vec snp_bytes B npl).length = 4 * (B - 1) + npl := by
  rw [snp_vec_eq_map_range _ _ _ hB hnpl, List.length_map, List.length_range]

lemma pack_column_length (col : List Nat) (n : Nat) :
    (pack_column col n).length = num_bytes_per_snp n := by
  unfold pack_column num_bytes_per_snp usize_div_ceil
  by_cases h : n % 4 = 0
  · simp [h]
  · simp [h, Nat.pos_of_ne_zero h]

lemma getD_pack_column_full (col : List Nat) (n q : Nat) (hq : q < n / 4) :
    (pack_column col n).getD q 0 = pack_full_byte col q := by
  unfold pack_column
  rw [List.getD_append _ _ _ _ (by simpa using hq),
    List.getD_eq_getElem _ _ (by simpa using hq)]
  simp

lemma getD_pack_column_tail (col : List Nat) (n : Nat) (h : n % 4 ≠ 0) :
    (pack_column col n).getD (n / 4) 0 = pack_tail_byte col (4 * (n / 4)) (n % 4) := by
  unfold pack_column
  rw [List.getD_append_right _ _ _ _ (by simp)]
  simp [h, Nat.pos_of_ne_zero h]

lemma decode_full_byte (col : List Nat) (q r : Nat) (hr : r < 4) :
    lowest_two_bits_to_geno (pack_full_byte col q >>> (r <<< 1))
      = lowest_two_bits_to_geno (geno_to_lowest_two_bits (col.getD (4 * q + r) 0)) := by
  unfold pack_full_byte
  rw [decode_packed_byte_shift _ (geno_to_lowest_two_bits_lt_four _)
    _ (geno_to_lowest_two_bits_lt_four _) _ (geno_to_lowest_two_bits_lt_four _)
    _ (geno_to_lowest_two_bits_lt_four _) r hr]
  interval_cases r <;> simp

lemma decode_tail_byte (col : List Nat) (i r k : Nat) (hk : k < r) (hr : r ≤ 3) :
    lowest_two_bits_to_geno (pack_tail_byte col i r >>> (k <<< 1))
      = lowest_two_bits_to_geno (geno_to_lowest_two_bits (col.getD (i + k) 0)) := by
  have h1 : pack_tail_byte col i 1
      = geno_to_lowest_two_bits (col.getD (i + 0) 0)
        ||| ((0 : Nat) <<< 2) ||| ((0 : Nat) <<< 4) ||| ((0 : Nat) <<< 6) := by
    simp [pack_tail_byte, show List.range 1 = [0] from rfl, Nat.zero_or, Nat.shiftLeft_zero,
      Nat.zero_shiftLeft, Nat.or_zero]
  have h2 : pack_tail_byte col i 2
      = geno_to_lowest_two_bits (col.getD (i + 0) 0)
        ||| (geno_to_lowest_two_bits (col.getD (i + 1) 0) <<< 2)
        ||| ((0 : Nat) <<< 4) ||| ((0 : Nat) <<< 6) := by
    simp [pack_tail_byte, show List.range 2 = [0, 1] from rfl, Nat.zero_or, Nat.shiftLeft_zero,
      Nat.zero_shiftLeft, Nat.or_zero]
  have h3 : pack_tail_byte col i 3
      = geno_to_lowest_two_bits (col.getD (i + 0) 0)
        ||| (geno_to_lowest_two_bits (col.getD (i + 1) 0) <<< 2)
        ||| (geno_to_lowest_two_bits (col.getD (i + 2) 0) <<< 4) ||| ((0 : Nat) <<< 6) := by
    simp [pack_tail_byte, show List.range 3 = [0, 1, 2] from rfl, Nat.zero_or, Nat.shiftLeft_zero,
      Nat.zero_shiftLeft, Nat.or_zero]
  interval_cases r
  · omega
  · rw [h1, decode_packed_byte_shift _ (geno_to_lowest_two_bits_lt_four _)
      _ (by norm_num) _ (by norm_num) _ (by norm_num) k (by omega)]
    interval_cases k <;> simp
  · rw [h2, decode_packed_byte_shift _ (geno_to_lowest_two_bits_lt_four _)
      _ (geno_to_lowest_two_bits_lt_four _) _ (by norm_num) _ (by norm_num) k (by omega)]
    interval_cases k <;> simp
  · rw [h3, decode_packed_byte_shift _ (geno_to_lowest_two_bits_lt_four _)
      _ (geno_to_lowest_two_bits_lt_four _) _ (geno_to_lowest_two_bits_lt_four _)
      _ (by norm_num) k (by omega)]
    interval_cases k <;> simp

lemma decode_pack_column (col : List Nat) (n : Nat) (hn : 0 < n) (hlen : col.length = n)
    (hent : ∀ g ∈ col, g < 4) :
    snp_bytes_to_geno_vec (pack_column col n) (num_bytes_per_snp n)
        ((get_num_people_last_byte n).getD 0)
      = col.map fun g => (((if g = 3 then 2 else g) : Nat) : ℚ) := by
  rw [snp_vec_eq_map_range _ _ _ (num_bytes_per_snp_pos n hn) (npl_le_four n),
    num_people_decomp n hn]
  apply List.ext_getElem
  · simp [hlen]
  intro j h1 h2
  have hj : j < n := by simpa using h1
  have hj4 : j < col.length := by omega
  have hcol : col.getD j 0 = col[j] := List.getD_eq_getElem _ _ hj4
  have hentj : col.getD j 0 < 4 := by
    rw [hcol]; exact hent _ (List.getElem_mem _)
  rw [List.getElem_map, List.getElem_map, List.getElem_range]
  by_cases hq : j / 4 < n / 4
  · rw [getD_pack_column_full col n _ hq,
      decode_full_byte col (j / 4) (j % 4) (by omega),
      show 4 * (j / 4) + j % 4 = j from by omega,
      decode_encode_lt_four _ hentj, hcol]
  · have hq' : j / 4 = n / 4 := by omega
    have hmod : j % 4 < n % 4 := by omega
    rw [hq', getD_pack_column_tail col n (by omega),
      decode_tail_byte col _ _ _ hmod (by omega),
      show 4 * (n / 4) + j % 4 = j from by omega,
      decode_encode_lt_four _ hentj, hcol]

lemma get_file_snp_index_spec :
    ∀ (fns : List (Nat × PlinkSnpType)) (i f l : Nat) (t : PlinkSnpType),
      get_file_snp_index fns i = some (f, l, t) →
        f < fns.length ∧ l < (fns.getD f (0, .Additive)).1
          ∧ i = snps_before_file fns f + l ∧ t = (fns.getD f (0, .Additive)).2
  | [], i, f, l, t => by simp [get_file_snp_index]
  | (c, ty) :: rest, i, f, l, t => by
    intro h
    unfold get_file_snp_index at h
    by_cases hi : i < c
    · simp only [if_pos hi, Option.some.injEq, Prod.mk.injEq] at h
      obtain ⟨hf, hl, ht⟩ := h
      subst hf; subst hl; subst ht
      simp [snps_before_file, hi]
    · simp only [if_neg hi, Option.map_eq_some'] at h
      obtain ⟨⟨f', l', t'⟩, hrec, hmk⟩ := h
      simp only [Prod.mk.injEq] at hmk
      obtain ⟨hf, hl, ht⟩ := hmk
      subst hf; subst hl; subst ht
      obtain ⟨h1, h2, h3, h4⟩ := get_file_snp_index_spec rest (i - c) f' l' t' hrec
      refine ⟨by simpa using h1, by simpa using h2, ?_, by simpa using h4⟩
      have hsb : snps_before_file ((c, ty) :: rest) (f' + 1) = c + snps_before_file rest f' := by
        simp [snps_before_file]
      omega

lemma get_file_snp_index_total :
    ∀ (fns : List (Nat × PlinkSnpType)) (i : Nat), i < total_num_snps fns →
      ∃ f l t, get_file_snp_index fns i = some (f, l, t)
  | [], i => by simp [total_num_snps]
  | (c, ty) :: rest, i => by
    intro hi
    by_cases h : i < c
    · exact ⟨0, i, ty, by simp [get_file_snp_index, h]⟩
    · have hlt : i - c < total_num_snps rest := by
        simp only [total_num_snps, List.map_cons, List.sum_cons] at hi
        simp only [total_num_snps]
        omega
      obtain ⟨f, l, t, hrec⟩ := get_file_snp_index_total rest (i - c) hlt
      exact ⟨f + 1, l, t, by simp [get_file_snp_index, h, hrec]⟩

lemma get_file_snp_index_allAdditive :
    ∀ (fns : List (Nat × PlinkSnpType)) (i : Nat),
      get_file_snp_index (fns.map fun p => (p.1, PlinkSnpType.Additive)) i
        = (get_file_snp_index fns i).map fun r => (r.1, r.2.1, PlinkSnpType.Additive)
  | [], i => by simp [get_file_snp_index]
  | (c, ty) :: rest, i => by
    unfold get_file_snp_index
    by_cases h : i < c
    · simp [h]
    · simp only [List.map_cons, if_neg h]
      rw [get_file_snp_index_allAdditive rest (i - c)]
      cases get_file_snp_index rest (i - c) <;> simp

lemma total_num_snps_allAdditive (fns : List (Nat × PlinkSnpType)) :
    total_num_snps (fns.map fun p => (p.1, PlinkSnpType.Additive)) = total_num_snps fns := by
  unfold total_num_snps
  rw [List.map_map]
  rfl

lemma total_num_snps_pos (fns : List (Nat × PlinkSnpType)) (hne : fns ≠ [])
    (hpos : ∀ p ∈ fns, 0 < p.1) : 0 < total_num_snps fns := by
  cases fns with
  | nil => exact absurd rfl hne
  | cons p rest =>
    have := hpos p (by simp)
    simp only [total_num_snps, List.map_cons, List.sum_cons]
    omega

lemma snps_before_add_lt_total :
    ∀ (fns : List (Nat × PlinkSnpType)) (f l : Nat),
      f < fns.length → l < (fns.getD f (0, .Additive)).1 →
      snps_before_file fns f + l < total_num_snps fns
  | [], f, l => by simp
  | p :: rest, 0, l => by
    intro _ hl
    rw [List.getD_cons_zero] at hl
    simp only [snps_before_file, List.take_zero, List.map_nil, List.sum_nil, total_num_snps,
      List.map_cons, List.sum_cons]
    have : (0:Nat) ≤ (rest.map Prod.fst).sum := Nat.zero_le _
    omega
  | p :: rest, f + 1, l => by
    intro hf hl
    have h1 := snps_before_add_lt_total rest f l (by simpa using hf) (by simpa using hl)
    simp only [snps_before_file, List.take_succ_cons, List.map_cons, List.sum_cons,
      total_num_snps] at h1 ⊢
    omega

lemma create_bed_length (cols : List (List Nat)) (n : Nat) :
    (create_bed cols n).length = 3 + cols.length * num_bytes_per_snp n := by
  unfold create_bed MAGIC_BYTES
  induction cols with
  | nil => simp
  | cons c rest ih =>
    simp only [List.flatMap_cons, List.length_append, List.length_cons] at ih ⊢
    rw [pack_column_length]
    simp only [List.length_nil] at ih ⊢
    have hm : (rest.length + 1) * num_bytes_per_snp n
        = rest.length * num_bytes_per_snp n + num_bytes_per_snp n := by ring
    omega

lemma drop_take_flatMap_pack (cols : List (List Nat)) (n : Nat) :
    ∀ (j : Nat) (hj : j < cols.length),
      ((cols.flatMap fun c => pack_column c n).drop (num_bytes_per_snp n * j)).take
          (num_bytes_per_snp n)
        = pack_column cols[j] n := by
  induction cols with
  | nil => intro j hj; simp at hj
  | cons c rest ih =>
    intro j hj
    cases j with
    | zero =>
      simp only [List.flatMap_cons, Nat.mul_zero, List.drop_zero, List.getElem_cons_zero]
      exact List.take_left' (pack_column_length c n)
    | succ j' =>
      have : num_bytes_per_snp n * (j' + 1) = (pack_column c n).length + num_bytes_per_snp n * j' := by
        rw [pack_column_length]; ring
      rw [List.flatMap_cons, this, List.drop_append]
      exact ih j' (by simpa using hj)

lemma getD_set_self_nat (l : List Nat) (i v : Nat) (hi : i < l.length) :
    (l.set i v).getD i 0 = v := by
  rw [List.getD_eq_getElem _ _ (by simpa using hi), List.getElem_set_self]


lemma read_snp_bytes_absolute_ok (cfg : BedConfig) (st : PlinkColChunkIterState)
    (i f l : Nat) (t : PlinkSnpType) (hwf : BedWF cfg)
    (hres : get_file_snp_index cfg.file_num_snps i = some (f, l, t))
    (hmem : i ∈ st.range)
    (hpos : st.pos.length = cfg.files.length) :
    read_snp_bytes_absolute cfg i f l t st = some (t, true_snp_bytes cfg f l,
      { st with
        pos := st.pos.set f
          (NUM_MAGIC_BYTES + num_bytes_per_snp cfg.num_people * (l + 1))
        last_read_file_snp_index := some (f, l) }) := by
  obtain ⟨hfl, hll, hil, htl⟩ := get_file_snp_index_spec _ _ _ _ _ hres
  have hf_files : f < cfg.files.length := by rw [hwf.files_len]; exact hfl
  have hf_pos : f < st.pos.length := by rw [hpos]; exact hf_files
  have hbig := hwf.file_big f hfl
  have hmul : num_bytes_per_snp cfg.num_people * (l + 1)
      ≤ num_bytes_per_snp cfg.num_people * (cfg.file_num_snps.getD f (0, .Additive)).1 :=
    Nat.mul_le_mul_left _ hll
  have hstep : NUM_MAGIC_BYTES + num_bytes_per_snp cfg.num_people * l
      + num_bytes_per_snp cfg.num_people
      = NUM_MAGIC_BYTES + num_bytes_per_snp cfg.num_people * (l + 1) := by ring
  have hread : NUM_MAGIC_BYTES + num_bytes_per_snp cfg.num_people * l
      + num_bytes_per_snp cfg.num_people ≤ (cfg.files.getD f []).length := by
    rw [hstep]; omega
  unfold read_snp_bytes_absolute seek_to_snp true_snp_bytes
  rw [if_pos hmem, hres]
  dsimp only
  unfold read_exact
  dsimp only
  rw [getD_set_self_nat _ _ _ hf_pos, if_pos hread]
  dsimp only
  rw [List.set_set, hstep]

lemma read_snp_bytes_ok (cfg : BedConfig) (st : PlinkColChunkIterState) (i f l : Nat)
    (t : PlinkSnpType) (hwf : BedWF cfg)
    (hres : get_file_snp_index cfg.file_num_snps i = some (f, l, t))
    (hmem : i ∈ st.range)
    (hpos : st.pos.length = cfg.files.length)
    (hlast : ∀ lf ll, st.last_read_file_snp_index = some (lf, ll) →
      (∃ t', get_file_snp_index cfg.file_num_snps
          (snps_before_file cfg.file_num_snps lf + ll) = some (lf, ll, t'))
      ∧ st.pos.getD lf 0
          = NUM_MAGIC_BYTES + num_bytes_per_snp cfg.num_people * (ll + 1)
      ∧ snps_before_file cfg.file_num_snps lf + ll < i) :
    read_snp_bytes cfg i st = some (t, true_snp_bytes cfg f l,
      { st with
        pos := st.pos.set f
          (NUM_MAGIC_BYTES + num_bytes_per_snp cfg.num_people * (l + 1))
        last_read_file_snp_index := some (f, l) }) := by
  obtain ⟨hfl, hll, hil, htl⟩ := get_file_snp_index_spec _ _ _ _ _ hres
  have hf_files : f < cfg.files.length := by rw [hwf.files_len]; exact hfl
  have hf_pos : f < st.pos.length := by rw [hpos]; exact hf_files
  have hbig := hwf.file_big f hfl
  have hmul : num_bytes_per_snp cfg.num_people * (l + 1)
      ≤ num_bytes_per_snp cfg.num_people * (cfg.file_num_snps.getD f (0, .Additive)).1 :=
    Nat.mul_le_mul_left _ hll
  have hstep : NUM_MAGIC_BYTES + num_bytes_per_snp cfg.num_people * l
      + num_bytes_per_snp cfg.num_people
      = NUM_MAGIC_BYTES + num_bytes_per_snp cfg.num_people * (l + 1) := by ring
  have hread : NUM_MAGIC_BYTES + num_bytes_per_snp cfg.num_people * l
      + num_bytes_per_snp cfg.num_people ≤ (cfg.files.getD f []).length := by
    rw [hstep]; omega
  unfold read_snp_bytes
  rw [hres]
  dsimp only
  match hL : st.last_read_file_snp_index with
  | none =>
    dsimp only
    exact read_snp_bytes_absolute_ok cfg st i f l t hwf hres hmem hpos
  | some (lf, ll) =>
    dsimp only
    obtain ⟨⟨t', hresG⟩, hposG, hltG⟩ := hlast lf ll hL
    by_cases hff : f = lf
    · subst hff
      obtain ⟨_, hllcnt, hGil, _⟩ := get_file_snp_index_spec _ _ _ _ _ hresG
      have hlll : ll < l := by omega
      rw [if_pos rfl, if_neg (by omega)]
      unfold read_exact true_snp_bytes
      by_cases hgap : l - ll > 1
      · rw [if_pos hgap]
        dsimp only
        rw [getD_set_self_nat _ _ _ hf_pos]
        have harith : st.pos.getD f 0
            + (l - ll - 1) * num_bytes_per_snp cfg.num_people
            = NUM_MAGIC_BYTES + num_bytes_per_snp cfg.num_people * l := by
          rw [hposG]
          have h1 : l - ll - 1 + (ll + 1) = l := by omega
          calc NUM_MAGIC_BYTES + num_bytes_per_snp cfg.num_people * (ll + 1)
                + (l - ll - 1) * num_bytes_per_snp cfg.num_people
              = NUM_MAGIC_BYTES
                + num_bytes_per_snp cfg.num_people * (l - ll - 1 + (ll + 1)) := by ring
            _ = NUM_MAGIC_BYTES + num_bytes_per_snp cfg.num_people * l := by rw [h1]
        rw [harith, if_pos hread]
        dsimp only
        rw [hstep, List.set_set]
      · rw [if_neg hgap]
        dsimp only
        have harith : st.pos.getD f 0
            = NUM_MAGIC_BYTES + num_bytes_per_snp cfg.num_people * l := by
          rw [hposG, show ll + 1 = l from by omega]
        rw [harith, if_pos hread]
        dsimp only
        rw [hstep]
    · rw [if_neg hff]
      exact read_snp_bytes_absolute_ok cfg st i f l t hwf hres hmem hpos


lemma true_snp_column_of_res (cfg : BedConfig) (i f l : Nat) (t : PlinkSnpType)
    (hres : get_file_snp_index cfg.file_num_snps i = some (f, l, t)) :
    true_snp_column cfg i
      = match t with
        | .Additive => snp_bytes_to_geno_vec (true_snp_bytes cfg f l)
            (num_bytes_per_snp cfg.num_people) ((get_num_people_last_byte cfg.num_people).getD 0)
        | .Dominance => convert_geno_vec_to_dominance_representation
            (snp_bytes_to_geno_vec (true_snp_bytes cfg f l)
              (num_bytes_per_snp cfg.num_people)
              ((get_num_people_last_byte cfg.num_people).getD 0)) := by
  unfold true_snp_column
  simp only [hres]
  cases t <;> rfl

lemma read_chunk_go_ok (cfg : BedConfig) (hwf : BedWF cfg) :
    ∀ (S : List Nat) (st : PlinkColChunkIterState),
      (∀ i ∈ S, i ∈ st.range) →
      (∀ i ∈ S, i < total_num_snps cfg.file_num_snps) →
      List.Pairwise (· < ·) S →
      st.pos.length = cfg.files.length →
      (∀ lf ll, st.last_read_file_snp_index = some (lf, ll) →
        (∃ t', get_file_snp_index cfg.file_num_snps
            (snps_before_file cfg.file_num_snps lf + ll) = some (lf, ll, t'))
        ∧ st.pos.getD lf 0 = NUM_MAGIC_BYTES + num_bytes_per_snp cfg.num_people * (ll + 1)) →
      (∀ i ∈ S, lastG_lt cfg st i) →
      ∃ st', read_chunk_go cfg S st = some (S.map (true_snp_column cfg), st')
        ∧ st'.range = st.range
        ∧ st'.range_cursor = st.range_cursor
        ∧ st'.num_snps_in_range = st.num_snps_in_range
        ∧ st'.num_snps_per_iter = st.num_snps_per_iter
        ∧ st'.pos.length = cfg.files.length
        ∧ (∀ lf ll, st'.last_read_file_snp_index = some (lf, ll) →
            (∃ t', get_file_snp_index cfg.file_num_snps
                (snps_before_file cfg.file_num_snps lf + ll) = some (lf, ll, t'))
            ∧ st'.pos.getD lf 0 = NUM_MAGIC_BYTES + num_bytes_per_snp cfg.num_people * (ll + 1))
        ∧ (∀ j, (∀ i ∈ S, i < j) → lastG_lt cfg st j → lastG_lt cfg st' j)
  | [], st => by
    intro _ _ _ hpos hptr _
    exact ⟨st, rfl, rfl, rfl, rfl, rfl, hpos, hptr, fun j _ hj => hj⟩
  | i :: rest, st => by
    intro hmem hbnd hsort hpos hptr hlt
    obtain ⟨f, l, t, hres⟩ := get_file_snp_index_total _ _ (hbnd i (by simp))
    obtain ⟨hfl, hll, hil, htl⟩ := get_file_snp_index_spec _ _ _ _ _ hres
    have hf_files : f < cfg.files.length := by rw [hwf.files_len]; exact hfl
    have hf_pos : f < st.pos.length := by rw [hpos]; exact hf_files
    have hlast : ∀ lf ll, st.last_read_file_snp_index = some (lf, ll) →
        (∃ t', get_file_snp_index cfg.file_num_snps
            (snps_before_file cfg.file_num_snps lf + ll) = some (lf, ll, t'))
        ∧ st.pos.getD lf 0 = NUM_MAGIC_BYTES + num_bytes_per_snp cfg.num_people * (ll + 1)
        ∧ snps_before_file cfg.file_num_snps lf + ll < i := fun lf ll heq =>
      ⟨(hptr lf ll heq).1, (hptr lf ll heq).2, hlt i (by simp) lf ll heq⟩
    unfold read_chunk_go
    rw [read_snp_bytes_ok cfg st i f l t hwf hres (hmem i (by simp)) hpos hlast]
    dsimp only
    set st1 : PlinkColChunkIterState :=
      { st with
        pos := st.pos.set f
          (NUM_MAGIC_BYTES + num_bytes_per_snp cfg.num_people * (l + 1))
        last_read_file_snp_index := some (f, l) } with hst1
    have hpos1 : st1.pos.length = cfg.files.length := by
      rw [hst1]; simpa using hpos
    have hptr1 : ∀ lf ll, st1.last_read_file_snp_index = some (lf, ll) →
        (∃ t', get_file_snp_index cfg.file_num_snps
            (snps_before_file cfg.file_num_snps lf + ll) = some (lf, ll, t'))
        ∧ st1.pos.getD lf 0 = NUM_MAGIC_BYTES + num_bytes_per_snp cfg.num_people * (ll + 1) := by
      intro lf ll heq
      rw [hst1] at heq
      simp only [Option.some.injEq, Prod.mk.injEq] at heq
      obtain ⟨hlf, hll'⟩ := heq
      subst hlf; subst hll'
      refine ⟨⟨t, by rw [← hil]; exact hres⟩, ?_⟩
      rw [hst1]
      exact getD_set_self_nat _ _ _ hf_pos
    have hlt1 : ∀ i' ∈ rest, lastG_lt cfg st1 i' := by
      intro i' hi' lf ll heq
      rw [hst1] at heq
      simp only [Option.some.injEq, Prod.mk.injEq] at heq
      obtain ⟨hlf, hll'⟩ := heq
      subst hlf; subst hll'
      rw [← hil]
      exact (List.pairwise_cons.mp hsort).1 i' hi'
    obtain ⟨st', hgo, h1, h2, h3, h4, h5, h6, h7⟩ := read_chunk_go_ok cfg hwf rest st1
      (fun i' hi' => hmem i' (by simp [hi'])) (fun i' hi' => hbnd i' (by simp [hi']))
      (List.pairwise_cons.mp hsort).2 hpos1 hptr1 hlt1
    rw [hgo]
    dsimp only
    refine ⟨st', ?_, h1, h2, h3, h4, h5, h6, ?_⟩
    · rw [List.map_cons, true_snp_column_of_res cfg i f l t hres]
      cases t <;> rfl
    · intro j hj hstj
      refine h7 j (fun i' hi' => hj i' (by simp [hi'])) ?_
      intro lf ll heq
      rw [hst1] at heq
      simp only [Option.some.injEq, Prod.mk.injEq] at heq
      obtain ⟨hlf, hll'⟩ := heq
      subst hlf; subst hll'
      rw [← hil]
      exact hj i (by simp)

lemma read_chunk_ok (cfg : BedConfig) (st : PlinkColChunkIterState) (c : Nat)
    (hwf : BedWF cfg) (hinv : IterInv cfg st)
    (hc : c ≤ st.num_snps_in_range - st.range_cursor) :
    ∃ st', read_chunk cfg c st
        = some (((st.range.drop st.range_cursor).take c).map (true_snp_column cfg), st')
      ∧ IterInv cfg st'
      ∧ st'.range = st.range
      ∧ st'.range_cursor = st.range_cursor + c
      ∧ st'.num_snps_in_range = st.num_snps_in_range
      ∧ st'.num_snps_per_iter = st.num_snps_per_iter := by
  have hSlen : ((st.range.drop st.range_cursor).take c).length = c := by
    rw [List.length_take, List.length_drop]
    have h1 := hinv.size_eq
    have h2 := hinv.cursor_le
    omega
  have hSsub : ((st.range.drop st.range_cursor).take c).Sublist st.range :=
    (List.take_sublist _ _).trans (List.drop_sublist _ _)
  have hSsorted : List.Pairwise (· < ·) ((st.range.drop st.range_cursor).take c) :=
    List.Pairwise.sublist hSsub hinv.sorted
  have hsplit : st.range.drop st.range_cursor
      = (st.range.drop st.range_cursor).take c ++ st.range.drop (st.range_cursor + c) := by
    conv_lhs => rw [← List.take_append_drop c (st.range.drop st.range_cursor)]
    rw [List.drop_drop]
  have hSdropmem : ∀ i ∈ (st.range.drop st.range_cursor).take c,
      i ∈ st.range.drop st.range_cursor := fun i hi => (List.take_sublist _ _).subset hi
  have hpairs : ∀ a ∈ (st.range.drop st.range_cursor).take c,
      ∀ b ∈ st.range.drop (st.range_cursor + c), a < b := by
    have hdropsorted : List.Pairwise (· < ·) (st.range.drop st.range_cursor) :=
      List.Pairwise.sublist (List.drop_sublist _ _) hinv.sorted
    rw [hsplit] at hdropsorted
    exact (List.pairwise_append.mp hdropsorted).2.2
  unfold read_chunk
  obtain ⟨st', hgo, h1, h2, h3, h4, h5, h6, h7⟩ := read_chunk_go_ok cfg hwf
    ((st.range.drop st.range_cursor).take c)
    { st with range_cursor := st.range_cursor + ((st.range.drop st.range_cursor).take c).length }
    (fun i hi => hSsub.subset hi)
    (fun i hi => hinv.bounded i (hSsub.subset hi))
    hSsorted
    hinv.pos_len
    hinv.last_ok
    (fun i hi => hinv.last_lt i (hSdropmem i hi))
  dsimp only at h1 h2 h3 h4
  rw [hgo]
  refine ⟨st', rfl, ?_, ?_, ?_, ?_, ?_⟩
  · constructor
    · rw [h1]; exact hinv.sorted
    · rw [h1]; exact hinv.bounded
    · exact h5
    · rw [h3, h2, hSlen]
      have h8 := hinv.size_eq
      have h9 := hinv.cursor_le
      omega
    · rw [h3, h1]; exact hinv.size_eq
    · exact h6
    · intro j hj
      rw [h1, h2, hSlen] at hj
      refine h7 j (fun i hi => hpairs i hi j hj) ?_
      exact hinv.last_lt j (by rw [hsplit]; exact List.mem_append_right _ hj)
  · exact h1
  · rw [h2, hSlen]
  · exact h3
  · exact h4

lemma chunkIterNext_yield (cfg : BedConfig) (st : PlinkColChunkIterState)
    (hwf : BedWF cfg) (hinv : IterInv cfg st)
    (hlt : st.range_cursor < st.num_snps_in_range) :
    ∃ st', chunkIterNext cfg st = .yield
        (((st.range.drop st.range_cursor).take
            (min st.num_snps_per_iter (st.num_snps_in_range - st.range_cursor))).map
          (true_snp_column cfg)) st'
      ∧ IterInv cfg st'
      ∧ st'.range = st.range
      ∧ st'.range_cursor = st.range_cursor
          + min st.num_snps_per_iter (st.num_snps_in_range - st.range_cursor)
      ∧ st'.num_snps_in_range = st.num_snps_in_range
      ∧ st'.num_snps_per_iter = st.num_snps_per_iter := by
  obtain ⟨st', hrc, hI, hr, hc, hn, hk⟩ := read_chunk_ok cfg st
    (min st.num_snps_per_iter (st.num_snps_in_range - st.range_cursor)) hwf hinv
    (Nat.min_le_right _ _)
  unfold chunkIterNext
  rw [if_neg (by omega), hrc]
  exact ⟨st', rfl, hI, hr, hc, hn, hk⟩

lemma run_chunks_ok (cfg : BedConfig) (hwf : BedWF cfg) :
    ∀ (fuel : Nat) (st : PlinkColChunkIterState), IterInv cfg st →
      1 ≤ st.num_snps_per_iter →
      st.num_snps_in_range - st.range_cursor < fuel →
      ∃ chunks, run_chunks cfg fuel st = some chunks
        ∧ chunks.flatten = (st.range.drop st.range_cursor).map (true_snp_column cfg)
        ∧ ∀ ch ∈ chunks, ch.length ≤ st.num_snps_per_iter
            ∧ ∀ col ∈ ch, ∃ i, i ∈ st.range ∧ col = true_snp_column cfg i
  | 0, st => by omega
  | fuel + 1, st => by
    intro hinv hk hfuel
    by_cases hdone : st.num_snps_in_range ≤ st.range_cursor
    · refine ⟨[], ?_, ?_, by simp⟩
      · unfold run_chunks chunkIterNext
        rw [if_pos hdone]
      · have : st.range.drop st.range_cursor = [] :=
          List.drop_eq_nil_of_le (by rw [← hinv.size_eq]; omega)
        simp [this]
    · push_neg at hdone
      obtain ⟨st', hstep, hI, hr, hc, hn, hk'⟩ := chunkIterNext_yield cfg st hwf hinv hdone
      have hmin1 : 1 ≤ min st.num_snps_per_iter (st.num_snps_in_range - st.range_cursor) := by
        have h1 : 1 ≤ st.num_snps_in_range - st.range_cursor := by omega
        omega
      obtain ⟨chunks', hrun', hflat', hshape'⟩ := run_chunks_ok cfg hwf fuel st' hI
        (by rw [hk']; exact hk) (by rw [hn, hc]; omega)
      refine ⟨(((st.range.drop st.range_cursor).take
          (min st.num_snps_per_iter (st.num_snps_in_range - st.range_cursor))).map
        (true_snp_column cfg)) :: chunks', ?_, ?_, ?_⟩
      · unfold run_chunks
        rw [hstep]
        dsimp only
        rw [hrun']
        rfl
      · simp only [List.flatten_cons, hflat', hr, hc]
        rw [← List.map_append]
        congr 1
        conv_rhs => rw [← List.take_append_drop
          (min st.num_snps_per_iter (st.num_snps_in_range - st.range_cursor))
          (st.range.drop st.range_cursor)]
        rw [List.drop_drop]
      · intro ch hch
        rcases List.mem_cons.mp hch with hh | hh
        · subst hh
          constructor
          · rw [List.length_map, List.length_take]
            exact le_trans (Nat.min_le_left _ _) (Nat.min_le_left _ _)
          · intro col hcol
            obtain ⟨i, hi, hieq⟩ := List.mem_map.mp hcol
            exact ⟨i, ((List.take_sublist _ _).trans (List.drop_sublist _ _)).subset hi,
              hieq.symm⟩
        · obtain ⟨hlen, hcols⟩ := hshape' ch hh
          refine ⟨by omega, ?_⟩
          intro col hcol
          obtain ⟨i, hi, hieq⟩ := hcols col hcol
          exact ⟨i, by rw [← hr]; exact hi, hieq⟩

lemma plinkColChunkIterNew_ok (cfg : BedConfig) (R : List Nat) (k : Nat) (hwf : BedWF cfg)
    (hsorted : List.Pairwise (· < ·) R)
    (hbounded : ∀ i ∈ R, i < total_num_snps cfg.file_num_snps)
    (hne : R ≠ []) :
    ∃ st, plinkColChunkIterNew cfg R k = some st ∧ IterInv cfg st
      ∧ st.range = R ∧ st.range_cursor = 0 ∧ st.num_snps_in_range = R.length
      ∧ st.num_snps_per_iter = k := by
  have hmem : R.head hne ∈ R := List.head_mem hne
  obtain ⟨f, l, t, hres⟩ := get_file_snp_index_total _ _ (hbounded _ hmem)
  have hfl := (get_file_snp_index_spec _ _ _ _ _ hres).1
  unfold plinkColChunkIterNew seek_to_snp
  rw [List.head?_eq_head hne]
  dsimp only
  rw [if_pos hmem, hres]
  dsimp only
  refine ⟨_, rfl, ?_, rfl, rfl, rfl, rfl⟩
  constructor
  · exact hsorted
  · exact hbounded
  · simp [hwf.files_len]
  · exact Nat.zero_le _
  · rfl
  · intro lf ll h
    exact absurd h (by simp)
  · intro j _ lf ll h
    exact absurd h (by simp)

lemma true_snp_column_length (cfg : BedConfig) (i : Nat) (hwf : BedWF cfg)
    (hi : i < total_num_snps cfg.file_num_snps) :
    (true_snp_column cfg i).length = cfg.num_people := by
  obtain ⟨f, l, t, hres⟩ := get_file_snp_index_total _ _ hi
  rw [true_snp_column_of_res cfg i f l t hres]
  have hlen := length_snp_vec (true_snp_bytes cfg f l)
    (num_bytes_per_snp cfg.num_people) ((get_num_people_last_byte cfg.num_people).getD 0)
    (num_bytes_per_snp_pos _ hwf.num_people_pos) (npl_le_four _)
  have hdec := num_people_decomp _ hwf.num_people_pos
  cases t
  · dsimp only
    rw [hlen, hdec]
  · dsimp only
    unfold convert_geno_vec_to_dominance_representation
    rw [List.length_map, hlen, hdec]

lemma get_genotype_matrix_some_ok (cfg : BedConfig) (R : List Nat) (hwf : BedWF cfg)
    (hsorted : List.Pairwise (· < ·) R)
    (hbounded : ∀ i ∈ R, i < total_num_snps cfg.file_num_snps)
    (hne : R ≠ []) :
    get_genotype_matrix cfg (some R) = some (R.map (true_snp_column cfg)) := by
  unfold get_genotype_matrix col_chunk_iter
  dsimp only
  obtain ⟨st, hnew, hinv, hr, hc, hn, hk⟩ :=
    plinkColChunkIterNew_ok cfg R 100 hwf hsorted hbounded hne
  rw [hnew]
  dsimp only
  obtain ⟨chunks, hrun, hflat, _⟩ := run_chunks_ok cfg hwf (st.num_snps_in_range + 1) st hinv
    (by omega) (by omega)
  rw [hrun, Option.map_some', hflat, hr, hc, List.drop_zero]

lemma get_genotype_matrix_none_ok (cfg : BedConfig) (hwf : BedWF cfg) :
    get_genotype_matrix cfg none
      = some ((List.range (total_num_snps cfg.file_num_snps)).map (true_snp_column cfg)) := by
  have htot : 0 < total_num_snps cfg.file_num_snps :=
    total_num_snps_pos _ hwf.fns_ne hwf.counts_pos
  unfold get_genotype_matrix col_chunk_iter
  dsimp only
  rw [if_neg (by omega)]
  obtain ⟨st, hnew, hinv, hr, hc, hn, hk⟩ :=
    plinkColChunkIterNew_ok cfg (List.range (total_num_snps cfg.file_num_snps)) 100 hwf
      (List.pairwise_lt_range _) (by intro i hi; simpa using hi)
      (by intro h; rw [List.range_eq_nil] at h; omega)
  rw [hnew]
  dsimp only
  obtain ⟨chunks, hrun, hflat, _⟩ := run_chunks_ok cfg hwf (st.num_snps_in_range + 1) st hinv
    (by omega) (by omega)
  rw [hrun, Option.map_some', hflat, hr, hc, List.drop_zero]

lemma allAdditive_wf (cfg : BedConfig) (hwf : BedWF cfg) : BedWF (allAdditive cfg) := by
  have hgetD : ∀ f < cfg.file_num_snps.length,
      ((cfg.file_num_snps.map fun p => (p.1, PlinkSnpType.Additive)).getD f (0, .Additive)).1
        = (cfg.file_num_snps.getD f (0, .Additive)).1 := by
    intro f hf
    rw [List.getD_eq_getElem _ _ (by simpa using hf), List.getD_eq_getElem _ _ hf,
      List.getElem_map]
  constructor
  · simpa [allAdditive] using hwf.files_len
  · exact hwf.num_people_pos
  · intro p hp
    simp only [allAdditive, List.mem_map] at hp
    obtain ⟨q, hq, hqe⟩ := hp
    have := hwf.counts_pos q hq
    rw [← hqe]
    exact this
  · simp only [allAdditive, ne_eq, List.map_eq_nil_iff]
    exact hwf.fns_ne
  · intro f hf
    have hf' : f < cfg.file_num_snps.length := by simpa [allAdditive] using hf
    have hb := hwf.file_big f hf'
    simp only [allAdditive] at hf ⊢
    rw [hgetD f hf']
    exact hb

lemma snp_vec_values (bytes : List Nat) (B npl : Nat) :
    ∀ g ∈ snp_bytes_to_geno_vec bytes B npl, g = 0 ∨ g = 1 ∨ g = 2 := by
  intro g hg
  unfold snp_bytes_to_geno_vec at hg
  rw [List.mem_append] at hg
  have hval : ∃ x : Nat, x ≤ 2 ∧ g = (x : ℚ) := by
    rcases hg with hg | hg
    · rw [List.mem_flatMap] at hg
      obtain ⟨i, _, hmem⟩ := hg
      simp only [List.mem_cons, List.not_mem_nil, or_false] at hmem
      rcases hmem with h | h | h | h <;> exact ⟨_, lowest_two_bits_to_geno_le_two _, h⟩
    · rw [List.mem_map] at hg
      obtain ⟨k, _, hk⟩ := hg
      exact ⟨_, lowest_two_bits_to_geno_le_two _, hk.symm⟩
  obtain ⟨x, hx, hgx⟩ := hval
  subst hgx
  interval_cases x
  · left; norm_num
  · right; left; norm_num
  · right; right; norm_num

lemma convert_eq_formula (v : List ℚ) (n : Nat) (hlen : v.length = n) :
    convert_geno_vec_to_dominance_representation v
      = v.map fun g =>
          if g = 2 then 4 * (v.sum / (2 * (n : ℚ))) - 2
          else if g = 1 then 2 * (v.sum / (2 * (n : ℚ)))
          else 0 := by
  simp only [convert_geno_vec_to_dominance_representation]
  rw [hlen]

/-- C7: the additive codec decodes the two-bit codes `00, 01, 10, 11` to the
genotypes `2, 0, 1, 0`; encode and decode are mutually inverse on the
non-missing codes `{00, 10, 11}` and on the genotypes `{0, 1, 2}`; and the
missing code `01` decodes to 0 and re-encodes to `11`. -/
theorem codec_round_trip_and_table :
    lowest_two_bits_to_geno 0b00 = 2 ∧ lowest_two_bits_to_geno 0b01 = 0
      ∧ lowest_two_bits_to_geno 0b10 = 1 ∧ lowest_two_bits_to_geno 0b11 = 0
      ∧ geno_to_lowest_two_bits (lowest_two_bits_to_geno 0b00) = 0b00
      ∧ geno_to_lowest_two_bits (lowest_two_bits_to_geno 0b10) = 0b10
      ∧ geno_to_lowest_two_bits (lowest_two_bits_to_geno 0b11) = 0b11
      ∧ lowest_two_bits_to_geno (geno_to_lowest_two_bits 0) = 0
      ∧ lowest_two_bits_to_geno (geno_to_lowest_two_bits 1) = 1
      ∧ lowest_two_bits_to_geno (geno_to_lowest_two_bits 2) = 2
      ∧ geno_to_lowest_two_bits (lowest_two_bits_to_geno 0b01) = 0b11 := by
  decide

/-- C10: the encoder is total over bytes and depends only on the two lowest
bits of its argument; it sends the out-of-range genotype 3 to the code `0b00`,
the same code as genotype 2, so a matrix entry 3 is accepted by `create_bed`
and reads back as 2. -/
theorem encoder_mod_four_and_three_reads_back_two :
    (∀ g : Nat, geno_to_lowest_two_bits g = geno_to_lowest_two_bits (g % 4))
      ∧ geno_to_lowest_two_bits 3 = 0b00
      ∧ geno_to_lowest_two_bits 3 = geno_to_lowest_two_bits 2
      ∧ get_genotype_matrix ⟨[create_bed [[3]] 1], [(1, .Additive)], 1⟩ none
          = some [[2]] := by
  exact ⟨geno_to_lowest_two_bits_mod_four, by decide, by decide, by decide⟩

/-- C4: write/read round trip — packing a `{0,1,2}`-valued matrix (given as its
list of SNP columns, each of length `num_people`) with `create_bed` and
materialising the resulting single-file Additive reader with no range
restriction returns the matrix exactly, as real values. -/
theorem create_bed_materialise_roundtrip (cols : List (List Nat)) (n : Nat)
    (hn : 0 < n) (hne : cols ≠ [])
    (hlen : ∀ c ∈ cols, c.length = n) (hent : ∀ c ∈ cols, ∀ g ∈ c, g ≤ 2) :
    get_genotype_matrix ⟨[create_bed cols n], [(cols.length, .Additive)], n⟩ none
      = some (cols.map fun c => c.map fun g : Nat => (g : ℚ)) := by
  have hclen : 0 < cols.length := List.length_pos.mpr hne
  have htot : total_num_snps (BedConfig.mk [create_bed cols n]
      [(cols.length, .Additive)] n).file_num_snps = cols.length := by
    simp [total_num_snps]
  have hwf : BedWF ⟨[create_bed cols n], [(cols.length, .Additive)], n⟩ := by
    constructor
    · rfl
    · exact hn
    · intro p hp
      simp only [List.mem_singleton] at hp
      rw [hp]
      exact hclen
    · simp
    · intro f hf
      have hf0 : f = 0 := by simp at hf; omega
      subst hf0
      dsimp only
      rw [List.getD_cons_zero, List.getD_cons_zero, create_bed_length]
      have := Nat.mul_comm (num_bytes_per_snp n) cols.length
      simp only [NUM_MAGIC_BYTES]
      omega
  rw [get_genotype_matrix_none_ok _ hwf, htot]
  congr 1
  apply List.ext_getElem
  · simp
  intro j h1 h2
  have hj : j < cols.length := by simpa using h1
  rw [List.getElem_map, List.getElem_map, List.getElem_range]
  have hres : get_file_snp_index (BedConfig.mk [create_bed cols n]
      [(cols.length, .Additive)] n).file_num_snps j = some (0, j, .Additive) := by
    simp [get_file_snp_index, hj]
  rw [true_snp_column_of_res _ j 0 j .Additive hres]
  dsimp only
  have hbytes : true_snp_bytes ⟨[create_bed cols n], [(cols.length, .Additive)], n⟩ 0 j
      = pack_column cols[j] n := by
    unfold true_snp_bytes
    dsimp only
    rw [List.getD_cons_zero]
    rw [show (NUM_MAGIC_BYTES + num_bytes_per_snp n * j)
      = MAGIC_BYTES.length + num_bytes_per_snp n * j from rfl]
    unfold create_bed
    rw [List.drop_append]
    exact drop_take_flatMap_pack cols n j hj
  rw [hbytes]
  have hcolmem : cols[j] ∈ cols := List.getElem_mem _
  rw [decode_pack_column cols[j] n hn (hlen _ hcolmem)
    (fun g hg => by have := hent _ hcolmem g hg; omega)]
  trans (List.map (fun g : Nat => (g : ℚ)) cols[j])
  · apply List.map_congr_left
    intro g hg
    have hg2 : g ≤ 2 := hent _ hcolmem g hg
    rw [if_neg (by omega)]
  · rfl

/-- Witness for C4 at the spec's scenario S1: the 3×3 matrix
`[[0,0,1],[1,1,2],[0,2,1]]` (columns `[0,1,0], [0,1,2], [1,2,1]`) written with
`create_bed` materialises back to itself. -/
theorem create_bed_materialise_roundtrip_witness :
    get_genotype_matrix
        ⟨[create_bed [[0, 1, 0], [0, 1, 2], [1, 2, 1]] 3],
          [(([[0, 1, 0], [0, 1, 2], [1, 2, 1]] : List (List Nat)).length, .Additive)], 3⟩ none
      = some (([[0, 1, 0], [0, 1, 2], [1, 2, 1]] : List (List Nat)).map
          fun c => c.map fun g : Nat => (g : ℚ)) :=
  create_bed_materialise_roundtrip [[0, 1, 0], [0, 1, 2], [1, 2, 1]] 3
    (by decide) (by decide) (by decide) (by decide)

/-- C3 (amended: nonempty range): for a well-formed reader, a sorted in-bounds
nonempty RangeSet `R` and any chunk size `k ≥ 1`, forward chunk iteration
yields chunks whose concatenation is exactly the column selection of
`get_genotype_matrix(None)` at the indices of `R` in ascending order, and every
chunk has `num_people` rows and at most `k` columns. -/
theorem chunk_iter_concat_eq_column_selection (cfg : BedConfig) (R : List Nat) (k : Nat)
    (hwf : BedWF cfg) (hsorted : List.Pairwise (· < ·) R)
    (hbounded : ∀ i ∈ R, i < total_num_snps cfg.file_num_snps)
    (hne : R ≠ []) (hk : 1 ≤ k) :
    ∃ st chunks full,
      col_chunk_iter cfg k (some R) = some st
        ∧ run_chunks cfg (R.length + 1) st = some chunks
        ∧ get_genotype_matrix cfg none = some full
        ∧ chunks.flatten = R.map (fun i => full.getD i [])
        ∧ ∀ ch ∈ chunks, ch.length ≤ k ∧ ∀ col ∈ ch, col.length = cfg.num_people := by
  obtain ⟨st, hnew, hinv, hr, hc, hn, hkeq⟩ :=
    plinkColChunkIterNew_ok cfg R k hwf hsorted hbounded hne
  obtain ⟨chunks, hrun, hflat, hshape⟩ := run_chunks_ok cfg hwf (R.length + 1) st hinv
    (by omega) (by omega)
  refine ⟨st, chunks, _, hnew, hrun, get_genotype_matrix_none_ok cfg hwf, ?_, ?_⟩
  · rw [hflat, hr, hc, List.drop_zero]
    apply List.map_congr_left
    intro i hi
    have hitot : i < total_num_snps cfg.file_num_snps := hbounded i hi
    rw [List.getD_eq_getElem _ _ (by simpa using hitot), List.getElem_map,
      List.getElem_range]
  · intro ch hch
    obtain ⟨hlen, hcols⟩ := hshape ch hch
    refine ⟨by omega, ?_⟩
    intro col hcol
    obtain ⟨i, hi, hieq⟩ := hcols col hcol
    rw [hr] at hi
    rw [hieq]
    exact true_snp_column_length cfg i hwf (hbounded i hi)

/-- C3 counterexample: for the empty RangeSet the claim fails — the iterator
cannot even be constructed, because `PlinkColChunkIter::new` falls back to
`seek_to_snp(0).unwrap()` and `seek_to_snp` rejects an index outside the
(empty) range, so `col_chunk_iter` panics instead of yielding the `(num_people,
0)` selection. -/
theorem chunk_iter_empty_range_faults :
    col_chunk_iter cfgTwoSnps 1 (some []) = none := by decide

/-- Witness for C3 on a concrete reader: two SNPs, one individual, `R = [0, 1]`,
`k = 1`. -/
theorem chunk_iter_concat_eq_column_selection_witness :
    ∃ st chunks full,
      col_chunk_iter cfgTwoSnps 1 (some [0, 1]) = some st
        ∧ run_chunks cfgTwoSnps (([0, 1] : List Nat).length + 1) st = some chunks
        ∧ get_genotype_matrix cfgTwoSnps none = some full
        ∧ chunks.flatten = ([0, 1] : List Nat).map (fun i => full.getD i [])
        ∧ ∀ ch ∈ chunks, ch.length ≤ 1 ∧ ∀ col ∈ ch, col.length = cfgTwoSnps.num_people :=
  chunk_iter_concat_eq_column_selection cfgTwoSnps [0, 1] 1
    ⟨by decide, by decide, by decide, by decide, by decide⟩
    (by decide) (by decide) (by decide) (by decide)

/-- C6: for a SNP whose kind is Dominance, the reader's column is obtained from
the additive decode (values in `{0, 1, 2}`, missing folded to 0) by computing
`p = (Σ g) / (2 · num_people)` and mapping `2 ↦ 4p − 2`, `1 ↦ 2p`, `0 ↦ 0`:
materialising the reader equals materialising its all-Additive twin with that
transform applied to the Dominance columns. -/
theorem dominance_decode_transform (cfg : BedConfig) (j f l : Nat) (hwf : BedWF cfg)
    (hres : get_file_snp_index cfg.file_num_snps j = some (f, l, .Dominance)) :
    ∃ cols colsA,
      get_genotype_matrix cfg none = some cols
        ∧ get_genotype_matrix (allAdditive cfg) none = some colsA
        ∧ (∀ g ∈ colsA.getD j [], g = 0 ∨ g = 1 ∨ g = 2)
        ∧ cols.getD j []
            = (colsA.getD j []).map fun g =>
                if g = 2 then 4 * ((colsA.getD j []).sum / (2 * (cfg.num_people : ℚ))) - 2
                else if g = 1 then 2 * ((colsA.getD j []).sum / (2 * (cfg.num_people : ℚ)))
                else 0 := by
  have hwfA := allAdditive_wf cfg hwf
  obtain ⟨hfl, hll, hjl, _⟩ := get_file_snp_index_spec _ _ _ _ _ hres
  have hjtot : j < total_num_snps cfg.file_num_snps := by
    rw [hjl]; exact snps_before_add_lt_total _ _ _ hfl hll
  have hjtotA : j < total_num_snps (allAdditive cfg).file_num_snps := by
    show j < total_num_snps (cfg.file_num_snps.map fun p => (p.1, PlinkSnpType.Additive))
    rw [total_num_snps_allAdditive]
    exact hjtot
  have hresA : get_file_snp_index (allAdditive cfg).file_num_snps j
      = some (f, l, .Additive) := by
    show get_file_snp_index (cfg.file_num_snps.map fun p => (p.1, PlinkSnpType.Additive)) j
      = some (f, l, .Additive)
    rw [get_file_snp_index_allAdditive, hres]
    rfl
  have hA : ((List.range (total_num_snps (allAdditive cfg).file_num_snps)).map
      (true_snp_column (allAdditive cfg))).getD j []
      = true_snp_column (allAdditive cfg) j := by
    rw [List.getD_eq_getElem _ _ (by simpa using hjtotA), List.getElem_map,
      List.getElem_range]
  have hD : ((List.range (total_num_snps cfg.file_num_snps)).map
      (true_snp_column cfg)).getD j [] = true_snp_column cfg j := by
    rw [List.getD_eq_getElem _ _ (by simpa using hjtot), List.getElem_map,
      List.getElem_range]
  refine ⟨_, _, get_genotype_matrix_none_ok cfg hwf,
    get_genotype_matrix_none_ok (allAdditive cfg) hwfA, ?_, ?_⟩
  · rw [hA]
    intro g hg
    rw [true_snp_column_of_res _ j f l .Additive hresA] at hg
    exact snp_vec_values _ _ _ g hg
  · rw [hA, hD]
    rw [true_snp_column_of_res _ j f l .Additive hresA,
      true_snp_column_of_res _ j f l .Dominance hres]
    dsimp only
    have hveq : true_snp_bytes (allAdditive cfg) f l = true_snp_bytes cfg f l := rfl
    rw [hveq]
    have hlen1 : (snp_bytes_to_geno_vec (true_snp_bytes cfg f l)
        (num_bytes_per_snp cfg.num_people)
        ((get_num_people_last_byte cfg.num_people).getD 0)).length = cfg.num_people := by
      rw [length_snp_vec _ _ _ (num_bytes_per_snp_pos _ hwf.num_people_pos) (npl_le_four _)]
      exact num_people_decomp _ hwf.num_people_pos
    exact convert_eq_formula _ cfg.num_people hlen1

/-- Witness for C6 on `cfgDom`: one Dominance SNP over two individuals with
additive column `[2, 1]`, hence `p = 3/4`, transformed column `[1, 3/2]`. -/
theorem dominance_decode_transform_witness :
    ∃ cols colsA,
      get_genotype_matrix cfgDom none = some cols
        ∧ get_genotype_matrix (allAdditive cfgDom) none = some colsA
        ∧ (∀ g ∈ colsA.getD 0 [], g = 0 ∨ g = 1 ∨ g = 2)
        ∧ cols.getD 0 []
            = (colsA.getD 0 []).map fun g =>
                if g = 2 then 4 * ((colsA.getD 0 []).sum / (2 * (cfgDom.num_people : ℚ))) - 2
                else if g = 1 then 2 * ((colsA.getD 0 []).sum / (2 * (cfgDom.num_people : ℚ)))
                else 0 :=
  dominance_decode_transform cfgDom 0 0 0
    ⟨by decide, by decide, by decide, by decide, by decide⟩ (by decide)

/-- C8: every failure inside the production of a chunk (I/O read or seek error,
or a SNP-index resolution failure — all the ways `read_chunk` can fail)
surfaces synchronously from the pull: `next` reports the failure instead of a
matrix, no partial matrix is emitted for the failed chunk, and driving the
iterator yields nothing further. -/
theorem chunk_error_propagation (cfg : BedConfig) (st : PlinkColChunkIterState)
    (hpend : st.range_cursor < st.num_snps_in_range)
    (hfail : read_chunk cfg
        (min st.num_snps_per_iter (st.num_snps_in_range - st.range_cursor)) st = none) :
    chunkIterNext cfg st = .fault
      ∧ (∀ m st', chunkIterNext cfg st ≠ .yield m st')
      ∧ ∀ fuel, run_chunks cfg fuel st = none := by
  have hnext : chunkIterNext cfg st = .fault := by
    unfold chunkIterNext
    rw [if_neg (by omega), hfail]
  refine ⟨hnext, by simp [hnext], ?_⟩
  intro fuel
  cases fuel with
  | zero => rfl
  | succ n =>
    unfold run_chunks
    rw [hnext]

/-- Witness for C8: a reader whose backing file is truncated right after the
magic bytes; the very first pull faults and the run yields nothing. -/
theorem chunk_error_propagation_witness :
    chunkIterNext cfgTruncated ⟨[3], [0], 1, 1, 0, none⟩ = .fault
      ∧ ∀ fuel, run_chunks cfgTruncated fuel ⟨[3], [0], 1, 1, 0, none⟩ = none :=
  ⟨(chunk_error_propagation cfgTruncated ⟨[3], [0], 1, 1, 0, none⟩
      (by decide) (by decide)).1,
    (chunk_error_propagation cfgTruncated ⟨[3], [0], 1, 1, 0, none⟩
      (by decide) (by decide)).2.2⟩

/-- C9: chunk size zero is NOT rejected — `col_chunk_iter(0, ...)` constructs
the iterator without any `InvalidArgument` error, and `next()` then yields an
empty (`num_people × 0`) matrix while leaving the state unchanged, hence an
unbounded sequence of chunks: no finite fuel ever reaches `done`. -/
theorem chunk_size_zero_not_rejected :
    col_chunk_iter cfgOne 0 (some [0]) = some ⟨[3], [0], 0, 1, 0, none⟩
      ∧ chunkIterNext cfgOne ⟨[3], [0], 0, 1, 0, none⟩
          = .yield [] ⟨[3], [0], 0, 1, 0, none⟩
      ∧ ∀ fuel, run_chunks cfgOne fuel ⟨[3], [0], 0, 1, 0, none⟩ = none := by
  refine ⟨by decide, by decide, ?_⟩
  intro fuel
  induction fuel with
  | zero => rfl
  | succ n ih =>
    unfold run_chunks
    rw [show chunkIterNext cfgOne ⟨[3], [0], 0, 1, 0, none⟩
      = .yield [] ⟨[3], [0], 0, 1, 0, none⟩ from by decide]
    dsimp only
    rw [ih]
    rfl

/-- C1: reverse iteration does not read the untaken suffix.  On a reader with
four SNP columns `[0,0], [1,1], [2,2], [0,1]`, full range and `k = 1`, driving
`next_back` to exhaustion yields only two chunks — the columns of ranks 0 and 1
(the elements at the forward cursor) — instead of four chunks covering every
rank once; in particular the first `next_back` returns `[[0,0]]` (rank 0), not
the rank-3 column `[0,1]`. -/
theorem next_back_reads_forward_cursor :
    ∃ st, plinkColChunkIterNew cfgFour [0, 1, 2, 3] 1 = some st
      ∧ run_back_chunks cfgFour 10 st = some [[[0, 0]], [[1, 1]]]
      ∧ get_genotype_matrix cfgFour none
          = some [[0, 0], [1, 1], [2, 2], [0, 1]]
      ∧ ([[[0, 0]], [[1, 1]]] : List (List (List ℚ))).length ≠ ([0, 1, 2, 3] : List Nat).length
      ∧ ([[0, 0]] : List (List ℚ)) ≠ [[0, 1]] := by
  exact ⟨⟨[3], [0, 1, 2, 3], 1, 4, 0, none⟩, by decide, by decide, by decide, by decide,
    by decide⟩

/-- C2: the transpose writer's inner loop ORs byte `w`'s codes into row buffers
`w .. w+3` instead of `4w .. 4w+3`.  For the one-SNP, eight-individual matrix
with column `[2,2,2,2,0,0,0,0]` and `snp_byte_chunk_size = 2`, the output is
`[0,3,3,3,3,0,0,0]` instead of the re-encoded rows
`[2,2,2,2,0,0,0,0].map geno_to_lowest_two_bits = [0,0,0,0,3,3,3,3]`: individual
1's byte decodes to genotype 0 although the input says 2. -/
theorem create_bed_t_misplaces_individuals :
    create_bed_t cfgEight 0 2 = some [0, 3, 3, 3, 3, 0, 0, 0]
      ∧ [0, 3, 3, 3, 3, 0, 0, 0]
          ≠ ([2, 2, 2, 2, 0, 0, 0, 0] : List Nat).map geno_to_lowest_two_bits
      ∧ lowest_two_bits_to_geno (([0, 3, 3, 3, 3, 0, 0, 0] : List Nat).getD 1 0) = 0 := by
  decide

/-- C5: `create_dominance_geno_bed` reads `total_num_snps * num_bytes_per_snp`
bytes from the single selected file.  On a two-file reader (one SNP and one
individual per file) it therefore emits TWO remapped blocks from file 0 — whose
declared SNP count is 1 — treating file 0's excess byte as a SNP block, instead
of writing exactly the selected file's single remapped block. -/
theorem create_dominance_geno_bed_reads_total :
    create_dominance_geno_bed cfgTwoFiles 0 = some [0x6c, 0x1b, 0x01, 2, 2]
      ∧ total_num_snps cfgTwoFiles.file_num_snps = 2
      ∧ (cfgTwoFiles.file_num_snps.getD 0 (0, .Additive)).1 = 1
      ∧ ([0x6c, 0x1b, 0x01, 2, 2] : List Nat).length
          ≠ NUM_MAGIC_BYTES + 1 * num_bytes_per_snp cfgTwoFiles.num_people := by
  decide
